import Mathlib

/-!
Shallow embedding of the schedule-generation core of
`light_modulation_library_generation.py` (repository
`light_modulation_crescontrol`).

Python floats are modelled as exact rationals (`ℚ`); the trigonometric curve
generator (`calculate_intensity_2`) is modelled over the reals.  A Python
runtime error (`IndexError`, `ZeroDivisionError`, `ValueError`) is modelled by
an `Option`-valued embedding returning `none`.  Python's `set` of times is
modelled by `List.dedup`; `sorted` on pairs is modelled by `List.mergeSort`
with the lexicographic order (for the series handled here all time values are
distinct, so the arbitrary iteration order of a Python set cannot influence
the sorted result).
-/

namespace LightModulation

/-- A data point of a schedule: (time in seconds since midnight, intensity). -/
abbrev DataPoint : Type := ℚ × ℚ

/-- Time values of a series, in order of appearance. -/
def keysOf (ds : List DataPoint) : List ℚ := ds.map Prod.fst

/-- One pass of `clean_intermediate_flats_from_data_points_seconds`
(lines 459-487): the source walks `data_points_seconds[1:-1]` keeping
bookkeeping variables `left_intensity` (always the intensity of the previous
point of the original list, as it is reassigned on both branches) and
`right_intensity` (the intensity of the next point of the original list).
An interior point is dropped when it is value-flat with respect to both of
its original neighbours (within `treshold`) or when its time lies before
10800 s or after 82800 s.  The first and the last point are never appended
to `filtered_result`.  The traversal is realised here by zipping the list
with its two tails, which pairs every interior point with exactly its two
original neighbours. -/
def cleanFlatsPass (treshold : ℚ) (ds : List DataPoint) : List DataPoint :=
  (ds.zip (ds.tail.zip ds.tail.tail)).filterMap fun x =>
    if (|x.1.2 - x.2.1.2| < treshold ∧ |x.2.1.2 - x.2.2.2| < treshold)
        ∨ x.2.1.1 < 10800 ∨ 82800 < x.2.1.1
    then none else some x.2.1

/-- `clean_intermediate_flats_from_data_points_seconds` (lines 459-487).
The source reads `data_points_seconds[0]` and `data_points_seconds[2]`
before the loop, so any input with fewer than 3 points raises an
`IndexError`, modelled as `none`. -/
def clean_intermediate_flats_from_data_points_seconds
    (ds : List DataPoint) (treshold : ℚ) : Option (List DataPoint) :=
  if ds.length < 3 then none else some (cleanFlatsPass treshold ds)

/-- One pass of `clean_intermediate_zeros_from_data_points_seconds`
(lines 429-457); same traversal as `cleanFlatsPass` but the drop condition is
that all three intensities are below `treshold`, or that the time lies before
10800 s or after 75600 s. -/
def cleanZerosPass (treshold : ℚ) (ds : List DataPoint) : List DataPoint :=
  (ds.zip (ds.tail.zip ds.tail.tail)).filterMap fun x =>
    if (x.1.2 < treshold ∧ x.2.1.2 < treshold ∧ x.2.2.2 < treshold)
        ∨ x.2.1.1 < 10800 ∨ 75600 < x.2.1.1
    then none else some x.2.1

/-- `clean_intermediate_zeros_from_data_points_seconds` (lines 429-457);
like the flats variant it reads index 2 eagerly, so fewer than 3 points is an
`IndexError`, modelled as `none`. -/
def clean_intermediate_zeros_from_data_points_seconds
    (ds : List DataPoint) (treshold : ℚ) : Option (List DataPoint) :=
  if ds.length < 3 then none else some (cleanZerosPass treshold ds)

/-- Index-wise description of the surviving points of one flats pass: the
interior point at position `i + 1` survives exactly when it is not value-flat
with respect to both original neighbours and its time lies inside the band
`[10800, 82800]`. -/
def interiorKept (treshold : ℚ) (ds : List DataPoint) : List DataPoint :=
  (List.range (ds.length - 2)).filterMap fun i =>
    if (|(ds.getD i (0, 0)).2 - (ds.getD (i + 1) (0, 0)).2| < treshold ∧
        |(ds.getD (i + 1) (0, 0)).2 - (ds.getD (i + 2) (0, 0)).2| < treshold)
        ∨ (ds.getD (i + 1) (0, 0)).1 < 10800 ∨ 82800 < (ds.getD (i + 1) (0, 0)).1
    then none else some (ds.getD (i + 1) (0, 0))

/-- `get_modulated_max_intensity` (lines 231-244).  The solstice day lengths
are produced by the external astronomical collaborator (`suntime`); they are
taken here as parameters.  `day_length` is `latest_power_off -
earliest_power_on`; the source returns the affine interpolation without any
clamping. -/
def get_modulated_max_intensity (earliest_power_on latest_power_off
    summer_day_length winter_day_length amplitude_modulation : ℚ) : ℚ :=
  amplitude_modulation + (1 - amplitude_modulation) *
    (((latest_power_off - earliest_power_on) - winter_day_length) /
      (summer_day_length - winter_day_length))

/-- Python `int()` applied to a rational: truncation toward zero. -/
def truncQ (q : ℚ) : ℤ := if 0 ≤ q then ⌊q⌋ else ⌈q⌉

/-- Value denoted by rendering a number with `"%.2f"`: the nearest multiple
of 1/100 (the tie-breaking direction is immaterial to every statement proved
below, since ties are at distance exactly 1/200). -/
def round2 (q : ℚ) : ℚ := ((round (q * 100) : ℤ) : ℚ) / 100

/-- The clamp `min(max(minimum_intensity, intensity), maximum_intensity)`
applied by `convert_data_points_to_string` (line 519). -/
def clampI (minI maxI i : ℚ) : ℚ := min (max minI i) maxI

/-- Numeric content of one rendered pair of
`convert_data_points_to_string` (lines 514-520): the time is rendered as
`int(time)` with two (zero) decimals, the intensity is clamped and rendered
with two decimals.  Parsing the rendered decimal literals recovers exactly
these rational values. -/
def renderPoint (minI maxI : ℚ) (p : DataPoint) : DataPoint :=
  ((truncQ p.1 : ℚ), round2 (clampI minI maxI p.2))

/-- Numeric content of `convert_data_points_to_string` (lines 514-520): the
list of (time, intensity) values recovered by parsing the rendered string. -/
def convert_data_points_to_string_parsed
    (ds : List DataPoint) (minI maxI : ℚ) : List DataPoint :=
  ds.map (renderPoint minI maxI)

/-- The running maximum computed by `gate_data_points_seconds`
(lines 384-386): `max_intensity = 0` followed by `max_intensity =
max(max_intensity, intensity)` over the series. -/
def gateMax (ds : List DataPoint) : ℚ := ds.foldl (fun m p => max m p.2) 0

/-- `gate_data_points_seconds` (lines 373-403, plotting elided).  When no
`upper_gate` is given the computed maximum is used.  The gating factor
`(upper_gate - lower_gate) / (max_intensity - treshold)` is computed before
the loop; when the denominator is zero Python raises `ZeroDivisionError`,
modelled as `none`.  Otherwise intensities at most `treshold` are zeroed and
the rest are affinely remapped. -/
def gate_data_points_seconds (ds : List DataPoint) (treshold lower_gate : ℚ)
    (upper_gate : Option ℚ) : Option (List DataPoint) :=
  if gateMax ds - treshold = 0 then none
  else
    some (ds.map fun p =>
      if p.2 ≤ treshold then (p.1, 0)
      else (p.1, lower_gate + (p.2 - treshold) *
        ((upper_gate.getD (gateMax ds) - lower_gate) / (gateMax ds - treshold))))

/-- The order used by Python's `sorted` on (time, intensity) tuples:
lexicographic comparison. -/
def pairLe (p q : DataPoint) : Prop := p.1 < q.1 ∨ (p.1 = q.1 ∧ p.2 ≤ q.2)

instance : DecidableRel pairLe := fun p q => by unfold pairLe; infer_instance

instance : IsTotal DataPoint pairLe := by
  constructor
  intro a b
  rcases lt_trichotomy a.1 b.1 with h | h | h
  · exact Or.inl (Or.inl h)
  · rcases le_total a.2 b.2 with h2 | h2
    · exact Or.inl (Or.inr ⟨h, h2⟩)
    · exact Or.inr (Or.inr ⟨h.symm, h2⟩)
  · exact Or.inr (Or.inl h)

instance : IsTrans DataPoint pairLe := by
  constructor
  intro a b c hab hbc
  rcases hab with h1 | ⟨h1, h1i⟩
  · rcases hbc with h2 | ⟨h2, _⟩
    · exact Or.inl (lt_trans h1 h2)
    · exact Or.inl (h2 ▸ h1)
  · rcases hbc with h2 | ⟨h2, h2i⟩
    · exact Or.inl (h1 ▸ h2)
    · exact Or.inr ⟨h1.trans h2, h1i.trans h2i⟩

instance ltAntisymmRat : IsAntisymm ℚ (· < ·) :=
  ⟨fun _ _ h1 h2 => absurd h1 (lt_asymm h2)⟩

/-- The times present in `dsB` but missing from `dsA`
(`times_B - times_A` in `parallelize_data_points_seconds`, lines 329-333);
the Python `set` difference is modelled as a deduplicated filtered list. -/
def missingTimes (dsA dsB : List DataPoint) : List ℚ :=
  (keysOf dsB).dedup.filter fun t => ¬ t ∈ keysOf dsA

/-- One side of `parallelize_data_points_seconds` (lines 323-338): pad `dsA`
with zero-intensity samples at the times present only in `dsB`, then sort
(Python `sorted` on tuples; modelled as an insertion sort by the same
lexicographic order, which yields the same list because sortedness plus the
distinct time values determine it). -/
def padSide (dsA dsB : List DataPoint) : List DataPoint :=
  List.insertionSort pairLe (dsA ++ (missingTimes dsA dsB).map fun t => (t, 0))

/-- `parallelize_data_points_seconds` (lines 323-338). -/
def parallelize_data_points_seconds (ds1 ds2 : List DataPoint) :
    List DataPoint × List DataPoint :=
  (padSide ds1 ds2, padSide ds2 ds1)

/-- The `common_times` set of `substract_data_points_seconds` (line 366):
intersection of the two padded time sets (membership-only use, modelled as a
filtered list). -/
def commonTimes (ds1 ds2 : List DataPoint) : List ℚ :=
  (keysOf (parallelize_data_points_seconds ds1 ds2).1).filter
    fun t => t ∈ keysOf (parallelize_data_points_seconds ds1 ds2).2

/-- `substract_data_points_seconds` (lines 355-371): note that the outer
comprehension iterates over the original `data_points_seconds_1`, not the
padded version, while the inner one iterates over the padded
`data_points_seconds_2`; the unused `max_intensity` parameter of the source
is omitted. -/
def substract_data_points_seconds (ds1 ds2 : List DataPoint)
    (min_intensity : ℚ) : List DataPoint :=
  ds1.flatMap fun p =>
    (parallelize_data_points_seconds ds1 ds2).2.filterMap fun q =>
      if p.1 = q.1 ∧ p.1 ∈ commonTimes ds1 ds2
      then some (p.1, max (p.2 - q.2) min_intensity) else none

/-- Specification-side lookup: the intensity of the sample of `ds` at time
`t`, or 0 when `ds` has no sample at `t` (used to state what
`substract_data_points_seconds` computes pointwise). -/
def lookupIntensity (ds : List DataPoint) (t : ℚ) : ℚ :=
  match ds.find? fun q => decide (q.1 = t) with
  | some q => q.2
  | none => 0

/-- Comparison by time only, the order of `numpy.argsort` on the time column
used by `simplify_data_points_seconds` (line 412). -/
def timeLe (p q : DataPoint) : Prop := p.1 ≤ q.1

instance : DecidableRel timeLe := fun p q => by unfold timeLe; infer_instance

instance : IsTotal DataPoint timeLe := ⟨fun a b => le_total a.1 b.1⟩

instance : IsTrans DataPoint timeLe := ⟨fun _ _ _ h1 h2 => le_trans h1 h2⟩

/-- `numpy.linspace lo hi n` over exact rationals: `n` evenly spaced values
from `lo` to `hi` inclusive (empty for `n = 0`, `[lo]` for `n = 1`). -/
def linspace (lo hi : ℚ) (n : ℕ) : List ℚ :=
  if n = 0 then []
  else if n = 1 then [lo]
  else (List.range n).map fun (i : ℕ) => lo + (hi - lo) * (i : ℚ) / ((n : ℚ) - 1)

/-- `numpy.ndarray.min` of a list of times (used on a non-empty series). -/
def npMin (ts : List ℚ) : ℚ := ts.foldl min (ts.headD 0)

/-- `numpy.ndarray.max` of a list of times (used on a non-empty series). -/
def npMax (ts : List ℚ) : ℚ := ts.foldl max (ts.headD 0)

/-- `simplify_data_points_seconds` (lines 405-427): sort by time, fit a
degree-5 interpolating spline through the sorted points, evaluate it at
`desired_num_points` evenly spaced times spanning the time range, and gate
the result with `lower_gate = 0` (and the default `treshold = 0.01`,
`upper_gate = None`).  The FITPACK spline evaluator is the one numerical
component that cannot be embedded exactly; it is taken as the parameter
`spline` (given the sorted series and an evaluation time, it returns the
fitted intensity).  Every fact proved below about this function holds for
every `spline`, except where a concrete interpolation instance is noted. -/
def simplify_data_points_seconds (spline : List DataPoint → ℚ → ℚ)
    (ds : List DataPoint) (desired_num_points : ℕ) : Option (List DataPoint) :=
  gate_data_points_seconds
    ((linspace (npMin (keysOf (List.insertionSort timeLe ds)))
        (npMax (keysOf (List.insertionSort timeLe ds))) desired_num_points).map
      fun t => (t, spline (List.insertionSort timeLe ds) t))
    (1 / 100) 0 none

/-- The while loop of `clean_and_simplify_to_desired_points` (lines 505-508):
while the current series is longer than `desired`, decrement the resample
target `n` and recompute `clean(simplify(original, n))` from the ORIGINAL
series.  `fuel` bounds the recursion; the caller passes `length + 1`, enough
for `n` to reach 0, at which point Python would call `np.linspace` with a
negative sample count and raise `ValueError` (modelled as `none`).  A `none`
from the resample (gate division by zero) or from the elision (fewer than 3
points) likewise aborts, as the Python exception would. -/
def reduceLoop (spline : List DataPoint → ℚ → ℚ) (orig : List DataPoint)
    (desired : ℕ) : ℕ → List DataPoint → ℕ → Option (List DataPoint)
  | 0, current, _ => if desired < current.length then none else some current
  | fuel + 1, current, n =>
    if desired < current.length then
      if n = 0 then none
      else
        (simplify_data_points_seconds spline orig (n - 1)).bind fun simplified =>
          (clean_intermediate_flats_from_data_points_seconds simplified
              (1 / 1000)).bind fun cleaned =>
            reduceLoop spline orig desired fuel cleaned (n - 1)
    else some current

/-- `clean_and_simplify_to_desired_points` (lines 489-512). -/
def clean_and_simplify_to_desired_points (spline : List DataPoint → ℚ → ℚ)
    (ds : List DataPoint) (desired_num_points : ℕ) : Option (List DataPoint) :=
  reduceLoop spline ds desired_num_points (ds.length + 1) ds ds.length

/-- The interpolating spline through data whose intensities are all zero:
with `s = 0` FITPACK's coefficients solve a linear system with zero right
hand side, so the fitted spline is identically zero and so is its
evaluation.  Used to instantiate the pipeline on an all-zero schedule. -/
def zeroSpline : List DataPoint → ℚ → ℚ := fun _ _ => 0

/-- A concrete 33-point all-zero schedule (times 0, 2700, ..., 86400 s). -/
def ds33 : List DataPoint :=
  (List.range 33).map fun (i : ℕ) => ((i : ℚ) * 2700, 0)

/-- The fraction of the (padded) day window covered at `current_hour`
(`calculate_intensity_2`, lines 96-102): the window is first expanded by
`transition_duration_minutes / 60` on both sides. -/
noncomputable def fracOfDay (current_hour pOn pOff transition_minutes : ℝ) : ℝ :=
  (current_hour - (pOn - transition_minutes / 60)) /
    ((pOff + transition_minutes / 60) - (pOn - transition_minutes / 60))

/-- Coefficient `b = d/3` of `calculate_intensity_2` (line 108). -/
noncomputable def bCoef (d : ℝ) : ℝ := d / 3

/-- Coefficient `c = b**d` of `calculate_intensity_2` (line 109); Python
float `**` on a positive base is real `rpow`. -/
noncomputable def cCoef (d : ℝ) : ℝ := bCoef d ^ d

/-- Coefficient `e = (-2.05/39.0625)*(d-2)*(d-15)` of
`calculate_intensity_2` (line 110). -/
noncomputable def eCoef (d : ℝ) : ℝ := (-2.05 / 39.0625) * (d - 2) * (d - 15)

/-- Coefficient `a = (1/(b+e))**(1/(4*d))` of `calculate_intensity_2`
(line 111). -/
noncomputable def aCoef (d : ℝ) : ℝ := (1 / (bCoef d + eCoef d)) ^ (1 / (4 * d))

/-- The in-window intensity of `calculate_intensity_2` (lines 106-113):
`max(0, 1 - cos(pi/2 * cos(a * angle)**b)**c)` with
`angle = pi * (frac - 0.5)`. -/
noncomputable def rawIntensity2 (d frac : ℝ) : ℝ :=
  max 0 (1 - Real.cos (Real.pi / 2 *
    Real.cos (aCoef d * (Real.pi * (frac - 1 / 2))) ^ bCoef d) ^ cCoef d)

/-- `calculate_intensity_2` (lines 80-117), taking the decimal hour
(`convert_datetime_to_decimal_hour` of the sample time) directly: inside the
open padded window the broadened-cosine intensity, otherwise 0, finally
scaled by `amplitude_modulation`. -/
noncomputable def calculate_intensity_2 (current_hour pOn pOff
    amplitude_modulation maximum_broadness transition_minutes : ℝ) : ℝ :=
  (if 0 < fracOfDay current_hour pOn pOff transition_minutes
      ∧ fracOfDay current_hour pOn pOff transition_minutes < 1
    then rawIntensity2 maximum_broadness
      (fracOfDay current_hour pOn pOff transition_minutes)
    else 0) * amplitude_modulation

/-- `calculate_Schedule` (lines 246-268) with the repository's
`TIME_STEP_MINUTES = 5` (`light_modulation_settings.py`, line 12):
`24*60 // 5 = 288` samples; sample `k` is at `300 k` seconds after midnight
and decimal hour `5 k / 60`, and the loop re-applies `max(0, .)` to the
intensity (line 259). -/
noncomputable def calculate_Schedule (pOn pOff modulated_max_intensity
    maximum_broadness transition_minutes : ℝ) : List (ℝ × ℝ) :=
  (List.range 288).map fun (k : ℕ) =>
    (((k : ℝ) * 300), max 0 (calculate_intensity_2 ((k : ℝ) * 5 / 60) pOn pOff
      modulated_max_intensity maximum_broadness transition_minutes))

-- ---------------------------------------------------------------------------
-- Helper lemmas
-- ---------------------------------------------------------------------------

lemma keysOf_padded (dsA dsB : List DataPoint) :
    keysOf (dsA ++ (missingTimes dsA dsB).map fun t => (t, (0 : ℚ)))
      = keysOf dsA ++ missingTimes dsA dsB := by
  simp [keysOf, List.map_map, Function.comp_def]

lemma mem_missingTimes {dsA dsB : List DataPoint} {t : ℚ} :
    t ∈ missingTimes dsA dsB ↔ t ∈ keysOf dsB ∧ ¬ t ∈ keysOf dsA := by
  simp [missingTimes]

lemma padSide_perm (dsA dsB : List DataPoint) :
    (padSide dsA dsB).Perm
      (dsA ++ (missingTimes dsA dsB).map fun t => (t, 0)) :=
  List.perm_insertionSort pairLe _

lemma mem_padSide_of_left {dsA dsB : List DataPoint} {p : DataPoint}
    (h : p ∈ dsA) : p ∈ padSide dsA dsB :=
  (padSide_perm dsA dsB).mem_iff.2 (List.mem_append_left _ h)

lemma mem_padSide_of_missing {dsA dsB : List DataPoint} {t : ℚ}
    (h : t ∈ missingTimes dsA dsB) : ((t, 0) : DataPoint) ∈ padSide dsA dsB :=
  (padSide_perm dsA dsB).mem_iff.2
    (List.mem_append_right _ (List.mem_map_of_mem _ h))

lemma mem_padSide_cases {dsA dsB : List DataPoint} {p : DataPoint}
    (h : p ∈ padSide dsA dsB) : p ∈ dsA ∨ p.2 = 0 := by
  rcases List.mem_append.1 ((padSide_perm dsA dsB).mem_iff.1 h) with h2 | h2
  · exact Or.inl h2
  · rw [List.mem_map] at h2
    obtain ⟨t, _, he⟩ := h2
    exact Or.inr (by rw [← he])

lemma mem_keys_padSide {dsA dsB : List DataPoint} {t : ℚ} :
    t ∈ keysOf (padSide dsA dsB) ↔ t ∈ keysOf dsA ∨ t ∈ keysOf dsB := by
  unfold keysOf
  rw [((padSide_perm dsA dsB).map Prod.fst).mem_iff]
  rw [show (dsA ++ (missingTimes dsA dsB).map fun t => ((t : ℚ), (0 : ℚ))).map Prod.fst
      = keysOf dsA ++ missingTimes dsA dsB from keysOf_padded dsA dsB]
  rw [List.mem_append, mem_missingTimes]
  unfold keysOf
  tauto

lemma nodup_keys_of_pairwise {ds : List DataPoint}
    (h : List.Pairwise (fun a b : DataPoint => a.1 < b.1) ds) :
    (keysOf ds).Nodup := by
  unfold keysOf
  exact List.pairwise_map.2 (h.imp fun hlt => ne_of_lt hlt)

lemma nodup_keys_padSide {dsA dsB : List DataPoint}
    (hA : (keysOf dsA).Nodup) : (keysOf (padSide dsA dsB)).Nodup := by
  have hperm : (keysOf (padSide dsA dsB)).Perm (keysOf dsA ++ missingTimes dsA dsB) := by
    have h := (padSide_perm dsA dsB).map Prod.fst
    rw [show ((dsA ++ (missingTimes dsA dsB).map fun t => ((t : ℚ), (0 : ℚ))).map Prod.fst)
        = keysOf dsA ++ missingTimes dsA dsB from keysOf_padded dsA dsB] at h
    exact h
  rw [hperm.nodup_iff]
  rw [List.nodup_append]
  refine ⟨hA, List.Nodup.filter _ (List.nodup_dedup _), ?_⟩
  intro t ht hm
  exact (mem_missingTimes.1 hm).2 ht

lemma pairwise_lt_keys_padSide {dsA dsB : List DataPoint}
    (hA : (keysOf dsA).Nodup) :
    List.Pairwise (· < ·) (keysOf (padSide dsA dsB)) := by
  have hs : List.Pairwise pairLe (padSide dsA dsB) :=
    List.sorted_insertionSort pairLe _
  have hnd : (keysOf (padSide dsA dsB)).Nodup := nodup_keys_padSide hA
  unfold keysOf at hnd ⊢
  have hne : List.Pairwise (fun a b : DataPoint => a.1 ≠ b.1) (padSide dsA dsB) :=
    List.pairwise_map.1 hnd
  rw [List.pairwise_map]
  refine (hs.and hne).imp ?_
  rintro a b ⟨hab, hne2⟩
  rcases hab with h | ⟨h, _⟩
  · exact h
  · exact absurd h hne2

lemma toFinset_keys_padSide {dsA dsB : List DataPoint} :
    (keysOf (padSide dsA dsB)).toFinset
      = (keysOf dsA).toFinset ∪ (keysOf dsB).toFinset := by
  ext a
  simp only [List.mem_toFinset, Finset.mem_union]
  exact mem_keys_padSide

lemma keys_padSide_comm {ds1 ds2 : List DataPoint}
    (h1 : (keysOf ds1).Nodup) (h2 : (keysOf ds2).Nodup) :
    keysOf (padSide ds1 ds2) = keysOf (padSide ds2 ds1) := by
  have hp1 : List.Pairwise (· < ·) (keysOf (padSide ds1 ds2)) :=
    pairwise_lt_keys_padSide h1
  have hp2 : List.Pairwise (· < ·) (keysOf (padSide ds2 ds1)) :=
    pairwise_lt_keys_padSide h2
  have hnd1 : (keysOf (padSide ds1 ds2)).Nodup := nodup_keys_padSide h1
  have hnd2 : (keysOf (padSide ds2 ds1)).Nodup := nodup_keys_padSide h2
  have hperm : (keysOf (padSide ds1 ds2)).Perm (keysOf (padSide ds2 ds1)) := by
    rw [List.perm_ext_iff_of_nodup hnd1 hnd2]
    intro a
    rw [mem_keys_padSide, mem_keys_padSide]
    tauto
  exact List.eq_of_perm_of_sorted hperm hp1 hp2

lemma find?_eq_some_of_key {l : List DataPoint} (hnd : (keysOf l).Nodup)
    {q : DataPoint} (hq : q ∈ l) :
    l.find? (fun x => decide (x.1 = q.1)) = some q := by
  induction l with
  | nil => cases hq
  | cons y rest ih =>
    have hk : y.1 :: keysOf rest = keysOf (y :: rest) := by simp [keysOf]
    rw [← hk, List.nodup_cons] at hnd
    by_cases hy : y.1 = q.1
    · have hqy : q = y := by
        rcases List.mem_cons.1 hq with h | h
        · exact h
        · exact absurd (hy ▸ (List.mem_map_of_mem Prod.fst h : q.1 ∈ keysOf rest)) hnd.1
      rw [List.find?_cons, hqy]
      simp [hy]
    · rw [List.find?_cons]
      have : (decide (y.1 = q.1)) = false := by simp [hy]
      rw [this]
      have hqr : q ∈ rest := by
        rcases List.mem_cons.1 hq with h | h
        · exact absurd (by rw [h]) hy
        · exact h
      exact ih hnd.2 hqr

lemma lookupIntensity_of_mem {l : List DataPoint} (hnd : (keysOf l).Nodup)
    {q : DataPoint} (hq : q ∈ l) : lookupIntensity l q.1 = q.2 := by
  unfold lookupIntensity
  rw [find?_eq_some_of_key hnd hq]

lemma lookupIntensity_of_not_mem {l : List DataPoint} {t : ℚ}
    (h : ¬ t ∈ keysOf l) : lookupIntensity l t = 0 := by
  unfold lookupIntensity
  rw [List.find?_eq_none.2 ?_]
  intro x hx
  simp only [decide_eq_true_eq]
  intro he
  exact h (he ▸ List.mem_map_of_mem Prod.fst hx)

lemma filterMap_single {l : List DataPoint} (hnd : (keysOf l).Nodup)
    (p : DataPoint) {r : DataPoint} (hr : r ∈ l) (hrt : r.1 = p.1) (m : ℚ) :
    (l.filterMap fun x =>
        if p.1 = x.1 then some (p.1, max (p.2 - x.2) m) else none)
      = [(p.1, max (p.2 - r.2) m)] := by
  induction l with
  | nil => cases hr
  | cons y rest ih =>
    have hk : y.1 :: keysOf rest = keysOf (y :: rest) := by simp [keysOf]
    rw [← hk, List.nodup_cons] at hnd
    rw [List.filterMap_cons]
    by_cases hy : p.1 = y.1
    · have hry : r = y := by
        rcases List.mem_cons.1 hr with h | h
        · exact h
        · exact absurd ((hrt.trans hy) ▸ (List.mem_map_of_mem Prod.fst h : r.1 ∈ keysOf rest)) hnd.1
      rw [if_pos hy]
      have hnil : (rest.filterMap fun x =>
          if p.1 = x.1 then some (p.1, max (p.2 - x.2) m) else none) = [] := by
        rw [List.filterMap_eq_nil_iff]
        intro x hx
        rw [if_neg ?_]
        intro he
        exact hnd.1 ((he.symm.trans hy) ▸ (List.mem_map_of_mem Prod.fst hx : x.1 ∈ keysOf rest))
      rw [hnil, hry]
    · rw [if_neg hy]
      have hrr : r ∈ rest := by
        rcases List.mem_cons.1 hr with h | h
        · exact absurd (h ▸ hrt).symm hy
        · exact h
      exact ih hnd.2 hrr

lemma flatMap_eq_map {α β : Type} (l : List α) (f : α → List β) (g : α → β)
    (h : ∀ x ∈ l, f x = [g x]) : l.flatMap f = l.map g := by
  induction l with
  | nil => rfl
  | cons y rest ih =>
    rw [List.flatMap_cons]
    rw [h y (List.mem_cons_self y rest)]
    rw [ih fun x hx => h x (List.mem_cons_of_mem y hx)]
    rfl

lemma foldlMax_init_le (ds : List DataPoint) :
    ∀ a : ℚ, a ≤ ds.foldl (fun m p => max m p.2) a := by
  induction ds with
  | nil => intro a; exact le_refl a
  | cons q tl ih =>
    intro a
    exact le_trans (le_max_left a q.2) (ih (max a q.2))

lemma foldlMax_mem_le {ds : List DataPoint} {p : DataPoint} (hp : p ∈ ds) :
    ∀ a : ℚ, p.2 ≤ ds.foldl (fun m p => max m p.2) a := by
  induction ds with
  | nil => cases hp
  | cons q tl ih =>
    intro a
    rcases List.mem_cons.1 hp with h | h
    · subst h
      exact le_trans (le_max_right a p.2) (foldlMax_init_le tl (max a p.2))
    · exact ih h (max a q.2)

lemma foldlMax_le {ds : List DataPoint} {B : ℚ} (h : ∀ p ∈ ds, p.2 ≤ B) :
    ∀ a : ℚ, a ≤ B → ds.foldl (fun m p => max m p.2) a ≤ B := by
  induction ds with
  | nil => intro a ha; exact ha
  | cons q tl ih =>
    intro a ha
    exact ih (fun p hp => h p (List.mem_cons_of_mem q hp)) (max a q.2)
      (max_le ha (h q (List.mem_cons_self q tl)))

lemma foldlMax_eq_init_or_mem (ds : List DataPoint) :
    ∀ a : ℚ, ds.foldl (fun m p => max m p.2) a = a
      ∨ ∃ p ∈ ds, ds.foldl (fun m p => max m p.2) a = p.2 := by
  induction ds with
  | nil => intro a; exact Or.inl rfl
  | cons q tl ih =>
    intro a
    rcases ih (max a q.2) with h | ⟨p, hp, he⟩
    · rw [List.foldl_cons, h]
      rcases max_choice a q.2 with h2 | h2
      · exact Or.inl h2
      · exact Or.inr ⟨q, List.mem_cons_self q tl, h2⟩
    · exact Or.inr ⟨p, List.mem_cons_of_mem q hp, he⟩

lemma zip_tail_tail_eq (ds : List DataPoint) :
    ds.zip (ds.tail.zip ds.tail.tail)
      = (List.range (ds.length - 2)).map
          (fun i => (ds.getD i (0, 0), ds.getD (i + 1) (0, 0), ds.getD (i + 2) (0, 0))) := by
  induction ds with
  | nil => rfl
  | cons a tl ih =>
    cases tl with
    | nil => rfl
    | cons b tl2 =>
      cases tl2 with
      | nil => rfl
      | cons c t =>
        simp only [List.tail_cons] at ih ⊢
        rw [List.zip_cons_cons, List.zip_cons_cons, ih]
        have hlen : (a :: b :: c :: t).length - 2 = ((b :: c :: t).length - 2) + 1 := by
          simp
        rw [hlen, List.range_succ_eq_map]
        simp [List.map_map, Function.comp_def]

lemma cleanFlatsPass_eq_interiorKept (treshold : ℚ) (ds : List DataPoint) :
    cleanFlatsPass treshold ds = interiorKept treshold ds := by
  unfold cleanFlatsPass interiorKept
  rw [zip_tail_tail_eq, List.filterMap_map]
  rfl

-- ---------------------------------------------------------------------------
-- Claims
-- ---------------------------------------------------------------------------

/-- C2 (amended): for a series of at least 3 points, the flat-run elision
step keeps exactly those interior points that are non-flat AND whose time
lies inside the band `[10800, 82800]`; in particular every surviving point
lies inside that band, so the boundary band near midnight is always elided
(elision is forced there, not suppressed), and the first and last points
never survive. -/
theorem c2_flat_elision (treshold : ℚ) (ds : List DataPoint) (p : DataPoint)
    (h : 3 ≤ ds.length) (hp : p ∈ interiorKept treshold ds) :
    clean_intermediate_flats_from_data_points_seconds ds treshold
      = some (interiorKept treshold ds)
    ∧ 10800 ≤ p.1 ∧ p.1 ≤ 82800 := by
  refine ⟨?_, ?_⟩
  · unfold clean_intermediate_flats_from_data_points_seconds
    rw [if_neg (by omega)]
    exact congrArg some (cleanFlatsPass_eq_interiorKept treshold ds)
  · unfold interiorKept at hp
    rw [List.mem_filterMap] at hp
    obtain ⟨i, _, hcond⟩ := hp
    by_cases hc :
        (|(ds.getD i (0, 0)).2 - (ds.getD (i + 1) (0, 0)).2| < treshold ∧
          |(ds.getD (i + 1) (0, 0)).2 - (ds.getD (i + 2) (0, 0)).2| < treshold)
        ∨ (ds.getD (i + 1) (0, 0)).1 < 10800 ∨ 82800 < (ds.getD (i + 1) (0, 0)).1
    · rw [if_pos hc] at hcond
      exact absurd hcond (by simp)
    · rw [if_neg hc] at hcond
      push_neg at hc
      obtain ⟨-, h1, h2⟩ := hc
      cases hcond
      exact ⟨le_of_not_lt (by simpa using h1), le_of_not_lt (by simpa using h2)⟩

/-- Witness for C2: on `[(20000, 1), (30000, 5), (40000, 1)]` the single
interior point is non-flat and inside the band, so it survives and its time
lies in `[10800, 82800]`. -/
theorem c2_flat_elision_witness :
    clean_intermediate_flats_from_data_points_seconds
        [((20000 : ℚ), 1), (30000, 5), (40000, 1)] (1 / 1000)
      = some (interiorKept (1 / 1000) [((20000 : ℚ), 1), (30000, 5), (40000, 1)])
    ∧ 10800 ≤ (((30000 : ℚ), (5 : ℚ)) : DataPoint).1
    ∧ (((30000 : ℚ), (5 : ℚ)) : DataPoint).1 ≤ 82800 :=
  c2_flat_elision (1 / 1000) [((20000 : ℚ), 1), (30000, 5), (40000, 1)]
    ((30000 : ℚ), (5 : ℚ)) (by decide) (by
      norm_num [interiorKept, List.range_succ])

/-- Counterexample to C2 as stated: the interior point `(100, 5)` differs
from both neighbours by 5 (not less than the epsilon 1/1000) and its time
100 s lies in the boundary band near midnight, yet it is removed: the claim
said such a point is never removed, and that removal happens only for flat
points. -/
theorem c2_flat_elision_counterexample :
    clean_intermediate_flats_from_data_points_seconds
        [((0 : ℚ), 0), (100, 5), (200, 0)] (1 / 1000) = some []
    ∧ ¬ (|(0 : ℚ) - 5| < 1 / 1000) := by
  constructor
  · norm_num [clean_intermediate_flats_from_data_points_seconds, cleanFlatsPass]
  · norm_num

/-- C10: both elision functions read the element at index 2 (and index 0)
before their loop, so every input with fewer than 3 points fails with an
index-out-of-range error (modelled by `none`) instead of returning a
series. -/
theorem c10_short_series_error (ds : List DataPoint) (tre1 tre2 : ℚ)
    (h : ds.length < 3) :
    clean_intermediate_flats_from_data_points_seconds ds tre1 = none
    ∧ clean_intermediate_zeros_from_data_points_seconds ds tre2 = none := by
  unfold clean_intermediate_flats_from_data_points_seconds
    clean_intermediate_zeros_from_data_points_seconds
  rw [if_pos h, if_pos h]
  exact ⟨rfl, rfl⟩

/-- Witness for C10: a two-point series makes both elision functions fail. -/
theorem c10_short_series_error_witness :
    clean_intermediate_flats_from_data_points_seconds
        [((0 : ℚ), 1), (100, 2)] (1 / 1000) = none
    ∧ clean_intermediate_zeros_from_data_points_seconds
        [((0 : ℚ), 1), (100, 2)] (1 / 100) = none :=
  c10_short_series_error [((0 : ℚ), 1), (100, 2)] (1 / 1000) (1 / 100) (by simp)

/-- C8 (amended): `get_modulated_max_intensity` returns exactly the affine
formula `floor + (1 - floor) * (day_length - winter) / (summer - winter)`
with no clamping; the value lies in `[floor, 1]` whenever the day length lies
between the winter and summer solstice day lengths, but outside that range
the formula is returned unclamped. -/
theorem c8_modulated_intensity_formula (pOn pOff sdl wdl am : ℚ)
    (h1 : wdl < sdl) (h2 : 0 ≤ am) (h3 : am ≤ 1)
    (h4 : wdl ≤ pOff - pOn) (h5 : pOff - pOn ≤ sdl) :
    get_modulated_max_intensity pOn pOff sdl wdl am
      = am + (1 - am) * (((pOff - pOn) - wdl) / (sdl - wdl))
    ∧ am ≤ get_modulated_max_intensity pOn pOff sdl wdl am
    ∧ get_modulated_max_intensity pOn pOff sdl wdl am ≤ 1 := by
  have hden : (0 : ℚ) < sdl - wdl := by linarith
  have hrp0 : 0 ≤ ((pOff - pOn) - wdl) / (sdl - wdl) :=
    div_nonneg (by linarith) (le_of_lt hden)
  have hrp1 : ((pOff - pOn) - wdl) / (sdl - wdl) ≤ 1 := by
    rw [div_le_one hden]; linarith
  have ham : (0 : ℚ) ≤ 1 - am := by linarith
  refine ⟨rfl, ?_, ?_⟩
  · unfold get_modulated_max_intensity
    nlinarith [mul_nonneg ham hrp0]
  · unfold get_modulated_max_intensity
    nlinarith [mul_le_mul_of_nonneg_left hrp1 ham]

/-- Witness for C8: a day length midway between the solstices with floor 0.9
gives a value inside `[0.9, 1]`. -/
theorem c8_modulated_intensity_formula_witness :
    get_modulated_max_intensity 6 18 16 8 (9 / 10)
      = 9 / 10 + (1 - 9 / 10) * (((18 - 6 : ℚ) - 8) / (16 - 8))
    ∧ 9 / 10 ≤ get_modulated_max_intensity 6 18 16 8 (9 / 10)
    ∧ get_modulated_max_intensity 6 18 16 8 (9 / 10) ≤ 1 :=
  c8_modulated_intensity_formula 6 18 16 8 (9 / 10) (by norm_num) (by norm_num)
    (by norm_num) (by norm_num) (by norm_num)

/-- Counterexample to C8 as stated: with winter day length 8 h, summer day
length 16 h and a 24 h day window, the returned value is 1.1, outside the
interval `[0.9, 1]` into which the claim said the result is always clamped:
the source applies no clamp. -/
theorem c8_clamp_counterexample :
    get_modulated_max_intensity 0 24 16 8 (9 / 10) = 11 / 10
    ∧ ¬ (get_modulated_max_intensity 0 24 16 8 (9 / 10) ≤ 1) := by
  constructor
  · norm_num [get_modulated_max_intensity]
  · norm_num [get_modulated_max_intensity]

/-- C6: for a non-empty series of non-negative intensities whose maximum
intensity equals the gate threshold, `gate_data_points_seconds` fails
explicitly (Python raises `ZeroDivisionError` when computing the gating
factor, modelled as `none`); no series containing garbage values is
returned. -/
theorem c6_gate_division_by_zero (ds : List DataPoint) (treshold lower_gate : ℚ)
    (upper_gate : Option ℚ) (_hne : ds ≠ []) (hpos : ∀ p ∈ ds, 0 ≤ p.2)
    (hach : ∃ p ∈ ds, p.2 = treshold) (hle : ∀ p ∈ ds, p.2 ≤ treshold) :
    gate_data_points_seconds ds treshold lower_gate upper_gate = none := by
  have h0 : 0 ≤ treshold := by
    obtain ⟨p, hp, he⟩ := hach
    exact he ▸ hpos p hp
  have h1 : gateMax ds ≤ treshold := foldlMax_le hle 0 h0
  have h2 : treshold ≤ gateMax ds := by
    obtain ⟨p, hp, he⟩ := hach
    exact he ▸ foldlMax_mem_le hp 0
  unfold gate_data_points_seconds
  rw [if_pos (by linarith)]

/-- Witness for C6: a singleton series whose only intensity equals the
default threshold 0.01 makes the gate fail. -/
theorem c6_gate_division_by_zero_witness :
    gate_data_points_seconds [((0 : ℚ), 1 / 100)] (1 / 100) 1 none = none :=
  c6_gate_division_by_zero [((0 : ℚ), 1 / 100)] (1 / 100) 1 none
    (by simp) (by norm_num) ⟨((0 : ℚ), 1 / 100), by simp, rfl⟩ (by norm_num)

/-- C7 (amended): gating is idempotent exactly in the degenerate situation
where `lower_gate = treshold`; under the default parameters
(`lower_gate = 1`, `treshold = 0.01`) a second application changes the
values.  This theorem proves the positive half: if `lower_gate = treshold`,
the threshold is non-negative and below both the series maximum and the
explicit upper gate, then re-gating the gated series with the same
parameters returns it unchanged (exactly, in rational arithmetic). -/
theorem c7_gate_idempotent_when_lower_eq_treshold
    (ds g1 : List DataPoint) (treshold ug : ℚ)
    (h0 : 0 ≤ treshold) (hug : treshold < ug) (hM : treshold < gateMax ds)
    (hg1 : gate_data_points_seconds ds treshold treshold (some ug) = some g1) :
    gate_data_points_seconds g1 treshold treshold (some ug) = some g1 := by
  have hMne : gateMax ds - treshold ≠ 0 := by linarith
  have hf1pos : 0 < (ug - treshold) / (gateMax ds - treshold) :=
    div_pos (by linarith) (by linarith)
  unfold gate_data_points_seconds at hg1
  rw [if_neg hMne, Option.getD_some] at hg1
  have hg1e : g1 = ds.map fun p =>
      if p.2 ≤ treshold then (p.1, 0)
      else (p.1, treshold + (p.2 - treshold) *
        ((ug - treshold) / (gateMax ds - treshold))) := (Option.some.inj hg1).symm
  -- the maximum of the gated series is the upper gate
  have hach : ∃ p ∈ ds, p.2 = gateMax ds := by
    rcases foldlMax_eq_init_or_mem ds 0 with h | h
    · exact absurd h (by intro he; unfold gateMax at hM; rw [he] at hM; linarith)
    · obtain ⟨p, hp, he⟩ := h
      exact ⟨p, hp, he.symm⟩
  have hcancel : treshold + (gateMax ds - treshold) *
      ((ug - treshold) / (gateMax ds - treshold)) = ug := by
    rw [mul_comm, div_mul_cancel₀ _ hMne]; ring
  have hub : ∀ q ∈ g1, q.2 ≤ ug := by
    intro q hq
    rw [hg1e, List.mem_map] at hq
    obtain ⟨p, hp, he⟩ := hq
    by_cases hc : p.2 ≤ treshold
    · rw [if_pos hc] at he
      rw [← he]; dsimp only; linarith
    · rw [if_neg hc] at he
      rw [← he]; dsimp only
      have hpM : p.2 ≤ gateMax ds := foldlMax_mem_le hp 0
      nlinarith [mul_le_mul_of_nonneg_right (show p.2 - treshold ≤ gateMax ds - treshold by linarith) (le_of_lt hf1pos)]
  have hachU : ∃ q ∈ g1, q.2 = ug := by
    obtain ⟨p, hp, he⟩ := hach
    refine ⟨(p.1, treshold + (p.2 - treshold) *
      ((ug - treshold) / (gateMax ds - treshold))), ?_, ?_⟩
    · rw [hg1e, List.mem_map]
      refine ⟨p, hp, ?_⟩
      rw [if_neg (by rw [he]; exact not_le.2 hM)]
    · dsimp only
      rw [he, hcancel]
  have hMg1 : gateMax g1 = ug := by
    refine le_antisymm (foldlMax_le hub 0 (by linarith)) ?_
    obtain ⟨q, hq, he⟩ := hachU
    exact he ▸ foldlMax_mem_le hq 0
  have hugne : gateMax g1 - treshold ≠ 0 := by rw [hMg1]; intro h; exact absurd h (by linarith)
  unfold gate_data_points_seconds
  rw [if_neg hugne, Option.getD_some, hMg1, div_self (by intro h; exact absurd h (by linarith) : ug - treshold ≠ 0)]
  refine congrArg some ?_
  have hfix : ∀ q ∈ g1,
      (if q.2 ≤ treshold then (q.1, (0 : ℚ))
        else (q.1, treshold + (q.2 - treshold) * 1)) = q := by
    intro q hq
    rw [hg1e, List.mem_map] at hq
    obtain ⟨p, hp, he⟩ := hq
    by_cases hc : p.2 ≤ treshold
    · rw [if_pos hc] at he
      rw [← he]
      rw [if_pos (by dsimp only; linarith)]
    · rw [if_neg hc] at he
      have hq2 : treshold < q.2 := by
        rw [← he]; dsimp only
        nlinarith [mul_pos (show (0:ℚ) < p.2 - treshold by linarith) hf1pos]
      rw [if_neg (not_le.2 hq2)]
      rw [mul_one]
      have : treshold + (q.2 - treshold) = q.2 := by ring
      rw [this]
  calc g1.map (fun q => if q.2 ≤ treshold then (q.1, (0 : ℚ))
        else (q.1, treshold + (q.2 - treshold) * 1))
      = g1.map id := List.map_congr_left hfix
    _ = g1 := List.map_id g1

/-- Witness for the amended C7: a concrete two-point series gated with
`lower_gate = treshold = 0.01` and upper gate 10 is a fixed point of a
second gating. -/
theorem c7_gate_idempotent_witness :
    gate_data_points_seconds [((0 : ℚ), 109 / 22), (1, 10)] (1 / 100) (1 / 100)
        (some 10)
      = some [((0 : ℚ), 109 / 22), (1, 10)] :=
  c7_gate_idempotent_when_lower_eq_treshold
    [((0 : ℚ), 1 / 2), (1, 1)] [((0 : ℚ), 109 / 22), (1, 10)] (1 / 100) 10
    (by norm_num) (by norm_num)
    (lt_of_lt_of_le (by norm_num)
      (foldlMax_mem_le (List.mem_cons_of_mem _ (List.mem_cons_self _ _)) 0))
    (by norm_num [gate_data_points_seconds, gateMax, max_def])

/-- Counterexample to C7 as stated: with the source's default
`lower_gate = 1` and `treshold = 0.01` and upper gate 10, gating the gated
series again changes the first intensity from 60/11 to 7210/1221, so the
gate is not idempotent for every choice of gates for which gating is
defined. -/
theorem c7_idempotence_counterexample :
    gate_data_points_seconds [((0 : ℚ), 1 / 2), (1, 1)] (1 / 100) 1 (some 10)
      = some [((0 : ℚ), 60 / 11), (1, 10)]
    ∧ gate_data_points_seconds [((0 : ℚ), 60 / 11), (1, 10)] (1 / 100) 1 (some 10)
      = some [((0 : ℚ), 7210 / 1221), (1, 10)]
    ∧ ((60 : ℚ) / 11 ≠ 7210 / 1221) := by
  refine ⟨?_, ?_, by norm_num⟩ <;>
    norm_num [gate_data_points_seconds, gateMax, max_def]

/-- C9 (amended): parsing the string rendered by
`convert_data_points_to_string` recovers each clamped intensity to within
the declared precision (in fact within half an ulp, 1/200 ≤ 0.01), and the
rendered intensity lies in the clamping interval `[0, 10]`; the time however
is rendered as `int(time)`, i.e. truncated toward zero: it is recovered
exactly when the time is integral, and only to within 1 second otherwise. -/
theorem c9_serialization_roundtrip (ds : List DataPoint) (p : DataPoint)
    (hp : p ∈ ds) :
    renderPoint 0 10 p ∈ convert_data_points_to_string_parsed ds 0 10
    ∧ (renderPoint 0 10 p).1 = ((truncQ p.1 : ℤ) : ℚ)
    ∧ |(renderPoint 0 10 p).1 - p.1| < 1
    ∧ (p.1.den = 1 → (renderPoint 0 10 p).1 = p.1)
    ∧ |(renderPoint 0 10 p).2 - clampI 0 10 p.2| ≤ 1 / 200
    ∧ 0 ≤ (renderPoint 0 10 p).2 ∧ (renderPoint 0 10 p).2 ≤ 10 := by
  refine ⟨List.mem_map_of_mem _ hp, rfl, ?_, ?_, ?_, ?_, ?_⟩
  · show |((truncQ p.1 : ℤ) : ℚ) - p.1| < 1
    unfold truncQ
    by_cases hq : 0 ≤ p.1
    · rw [if_pos hq, abs_lt]
      constructor
      · have := Int.lt_floor_add_one p.1; linarith
      · have := Int.floor_le p.1; linarith
    · rw [if_neg hq, abs_lt]
      constructor
      · have := Int.le_ceil p.1; linarith
      · have := Int.ceil_lt_add_one p.1; linarith
  · intro hden
    have hnum : ((p.1.num : ℚ)) = p.1 := (Rat.den_eq_one_iff p.1).1 hden
    show ((truncQ p.1 : ℤ) : ℚ) = p.1
    unfold truncQ
    by_cases hq : 0 ≤ p.1
    · rw [if_pos hq, ← hnum, Int.floor_intCast]
    · rw [if_neg hq, ← hnum, Int.ceil_intCast]
  · show |round2 (clampI 0 10 p.2) - clampI 0 10 p.2| ≤ 1 / 200
    have h := abs_sub_round (clampI 0 10 p.2 * 100)
    have he : round2 (clampI 0 10 p.2) - clampI 0 10 p.2
        = -((clampI 0 10 p.2 * 100 - (round (clampI 0 10 p.2 * 100) : ℚ)) / 100) := by
      unfold round2; ring
    rw [he, abs_neg, abs_div]
    rw [show |(100 : ℚ)| = 100 by norm_num]
    linarith
  · show 0 ≤ round2 (clampI 0 10 p.2)
    have hv : 0 ≤ clampI 0 10 p.2 :=
      le_min (le_max_left 0 p.2) (by norm_num)
    unfold round2
    have : (0 : ℤ) ≤ round (clampI 0 10 p.2 * 100) := by
      rw [round_eq]
      have : (0 : ℤ) = ⌊(1 : ℚ) / 2⌋ := by norm_num
      rw [this]
      exact Int.floor_le_floor (by linarith)
    positivity
  · show round2 (clampI 0 10 p.2) ≤ 10
    have hv : clampI 0 10 p.2 ≤ 10 := min_le_right _ _
    unfold round2
    rw [div_le_iff (by norm_num : (0:ℚ) < 100)]
    have : round (clampI 0 10 p.2 * 100) ≤ 1000 := by
      rw [round_eq]
      have h1000 : (1000 : ℤ) = ⌊(1000 : ℚ) + 1 / 2⌋ := by norm_num
      rw [h1000]
      exact Int.floor_le_floor (by linarith)
    calc ((round (clampI 0 10 p.2 * 100) : ℤ) : ℚ) ≤ ((1000 : ℤ) : ℚ) := by
          exact_mod_cast this
      _ = 10 * 100 := by norm_num

/-- Witness for C9: the integral-time sample `(100, 5)` is recovered
exactly. -/
theorem c9_serialization_roundtrip_witness :
    renderPoint 0 10 ((100 : ℚ), 5)
        ∈ convert_data_points_to_string_parsed [((100 : ℚ), 5)] 0 10
    ∧ (renderPoint 0 10 ((100 : ℚ), 5)).1 = ((truncQ (100 : ℚ) : ℤ) : ℚ)
    ∧ |(renderPoint 0 10 ((100 : ℚ), 5)).1 - (100 : ℚ)| < 1
    ∧ (((100 : ℚ)).den = 1 → (renderPoint 0 10 ((100 : ℚ), 5)).1 = 100)
    ∧ |(renderPoint 0 10 ((100 : ℚ), 5)).2 - clampI 0 10 5| ≤ 1 / 200
    ∧ 0 ≤ (renderPoint 0 10 ((100 : ℚ), 5)).2
    ∧ (renderPoint 0 10 ((100 : ℚ), 5)).2 ≤ 10 :=
  c9_serialization_roundtrip [((100 : ℚ), 5)] ((100 : ℚ), 5) (by simp)

/-- Counterexample to C9 as stated: the sample `(100.5, 5)` renders with
time `int(100.5) = 100`, and `|100 - 100.5| = 0.5` exceeds the declared
2-decimal precision 0.01, so times are not recovered to within the declared
precision. -/
theorem c9_time_precision_counterexample :
    convert_data_points_to_string_parsed [((201 / 2 : ℚ), 5)] 0 10
      = [((100 : ℚ), 5)]
    ∧ ¬ (|(100 : ℚ) - 201 / 2| ≤ 1 / 100) := by
  constructor
  · show [renderPoint 0 10 ((201 / 2 : ℚ), 5)] = [((100 : ℚ), 5)]
    have ht : truncQ (201 / 2 : ℚ) = 100 := by
      unfold truncQ
      rw [if_pos (by norm_num)]
      exact Int.floor_eq_iff.2 ⟨by norm_num, by norm_num⟩
    have hc : clampI 0 10 (5 : ℚ) = 5 := by
      unfold clampI
      rw [max_eq_right (by norm_num : (0 : ℚ) ≤ 5),
        min_eq_left (by norm_num : (5 : ℚ) ≤ 10)]
    have hr : round2 (clampI 0 10 (5 : ℚ)) = 5 := by
      rw [hc]
      unfold round2
      rw [show ((5 : ℚ) * 100) = ((500 : ℤ) : ℚ) by norm_num, round_intCast]
      norm_num
    have hpt : renderPoint 0 10 ((201 / 2 : ℚ), 5) = ((100 : ℚ), 5) := by
      unfold renderPoint
      rw [ht, hr]
      norm_num
    rw [hpt]
  · rw [not_le]
    calc (1 : ℚ) / 100 < 1 / 2 := by norm_num
      _ = |(100 : ℚ) - 201 / 2| := by
          rw [show (100 : ℚ) - 201 / 2 = -(1 / 2) by norm_num, abs_neg,
            abs_of_pos (by norm_num : (0 : ℚ) < 1 / 2)]

/-- C4: for sorted, duplicate-free inputs, `parallelize_data_points_seconds`
returns two series with the same time list, strictly sorted ascending, whose
time set is the union of the two input time sets; every sample of an input
appears unchanged in the corresponding output, and every sample of an output
that is not a sample of the input is a zero-intensity pad. -/
theorem c4_parallelize_alignment (ds1 ds2 : List DataPoint) (p q r s : DataPoint)
    (h1 : List.Pairwise (fun a b : DataPoint => a.1 < b.1) ds1)
    (h2 : List.Pairwise (fun a b : DataPoint => a.1 < b.1) ds2)
    (hp : p ∈ ds1) (hq : q ∈ (parallelize_data_points_seconds ds1 ds2).1)
    (hr : r ∈ ds2) (hs : s ∈ (parallelize_data_points_seconds ds1 ds2).2) :
    keysOf (parallelize_data_points_seconds ds1 ds2).1
      = keysOf (parallelize_data_points_seconds ds1 ds2).2
    ∧ List.Pairwise (· < ·) (keysOf (parallelize_data_points_seconds ds1 ds2).1)
    ∧ (keysOf (parallelize_data_points_seconds ds1 ds2).1).toFinset
      = (keysOf ds1).toFinset ∪ (keysOf ds2).toFinset
    ∧ p ∈ (parallelize_data_points_seconds ds1 ds2).1
    ∧ r ∈ (parallelize_data_points_seconds ds1 ds2).2
    ∧ (q ∈ ds1 ∨ q.2 = 0)
    ∧ (s ∈ ds2 ∨ s.2 = 0) := by
  have hnd1 := nodup_keys_of_pairwise h1
  have hnd2 := nodup_keys_of_pairwise h2
  exact ⟨keys_padSide_comm hnd1 hnd2, pairwise_lt_keys_padSide hnd1,
    toFinset_keys_padSide, mem_padSide_of_left hp, mem_padSide_of_left hr,
    mem_padSide_cases hq, mem_padSide_cases hs⟩

/-- Witness for C4: the spec's own scenario, `[(0,1),(10,2)]` aligned with
`[(5,3),(15,4)]`. -/
theorem c4_parallelize_alignment_witness :
    keysOf (parallelize_data_points_seconds
        [((0 : ℚ), 1), (10, 2)] [((5 : ℚ), 3), (15, 4)]).1
      = keysOf (parallelize_data_points_seconds
        [((0 : ℚ), 1), (10, 2)] [((5 : ℚ), 3), (15, 4)]).2
    ∧ List.Pairwise (· < ·) (keysOf (parallelize_data_points_seconds
        [((0 : ℚ), 1), (10, 2)] [((5 : ℚ), 3), (15, 4)]).1)
    ∧ (keysOf (parallelize_data_points_seconds
        [((0 : ℚ), 1), (10, 2)] [((5 : ℚ), 3), (15, 4)]).1).toFinset
      = (keysOf [((0 : ℚ), 1), (10, 2)]).toFinset
          ∪ (keysOf [((5 : ℚ), 3), (15, 4)]).toFinset
    ∧ (((0 : ℚ), (1 : ℚ)) : DataPoint) ∈ (parallelize_data_points_seconds
        [((0 : ℚ), 1), (10, 2)] [((5 : ℚ), 3), (15, 4)]).1
    ∧ (((5 : ℚ), (3 : ℚ)) : DataPoint) ∈ (parallelize_data_points_seconds
        [((0 : ℚ), 1), (10, 2)] [((5 : ℚ), 3), (15, 4)]).2
    ∧ ((((0 : ℚ), (1 : ℚ)) : DataPoint) ∈ [((0 : ℚ), 1), (10, 2)]
        ∨ (((0 : ℚ), (1 : ℚ)) : DataPoint).2 = 0)
    ∧ ((((5 : ℚ), (3 : ℚ)) : DataPoint) ∈ [((5 : ℚ), 3), (15, 4)]
        ∨ (((5 : ℚ), (3 : ℚ)) : DataPoint).2 = 0) :=
  c4_parallelize_alignment [((0 : ℚ), 1), (10, 2)] [((5 : ℚ), 3), (15, 4)]
    ((0 : ℚ), 1) ((0 : ℚ), 1) ((5 : ℚ), 3) ((5 : ℚ), 3)
    (by norm_num [List.pairwise_cons]) (by norm_num [List.pairwise_cons])
    (by simp) (mem_padSide_of_left (by simp))
    (by simp) (mem_padSide_of_left (by simp))

/-- C5 (amended): `substract_data_points_seconds` returns one point per time
of the FIRST series only (in the first series' order): the value at each
such time is `max(a_t - b_t, min_intensity)` where a missing sample of B
counts as 0; times present only in the second series do not appear in the
result (the outer comprehension iterates over the original first series, not
the aligned one, so the result is not on the union time grid). -/
theorem c5_substract_pointwise (ds1 ds2 : List DataPoint) (minI : ℚ)
    (h1 : List.Pairwise (fun a b : DataPoint => a.1 < b.1) ds1)
    (h2 : List.Pairwise (fun a b : DataPoint => a.1 < b.1) ds2) :
    substract_data_points_seconds ds1 ds2 minI
      = ds1.map fun p => (p.1, max (p.2 - lookupIntensity ds2 p.1) minI) := by
  have hnd1 := nodup_keys_of_pairwise h1
  have hnd2 := nodup_keys_of_pairwise h2
  unfold substract_data_points_seconds
  apply flatMap_eq_map
  intro p hp
  have hk1 : p.1 ∈ keysOf (padSide ds1 ds2) :=
    mem_keys_padSide.2 (Or.inl (List.mem_map_of_mem Prod.fst hp))
  have hk2 : p.1 ∈ keysOf (padSide ds2 ds1) :=
    mem_keys_padSide.2 (Or.inr (List.mem_map_of_mem Prod.fst hp))
  have hC : p.1 ∈ commonTimes ds1 ds2 := by
    unfold commonTimes
    rw [List.mem_filter]
    exact ⟨hk1, by simpa using hk2⟩
  obtain ⟨rr, hrmem, hrt, hrval⟩ :
      ∃ rr, rr ∈ padSide ds2 ds1 ∧ rr.1 = p.1
        ∧ rr.2 = lookupIntensity ds2 p.1 := by
    by_cases ht : p.1 ∈ keysOf ds2
    · have ht2 := ht
      rw [keysOf, List.mem_map] at ht2
      obtain ⟨r0, hr0, hr0t⟩ := ht2
      refine ⟨r0, mem_padSide_of_left hr0, hr0t, ?_⟩
      rw [← hr0t, lookupIntensity_of_mem hnd2 hr0]
    · have hmiss : p.1 ∈ missingTimes ds2 ds1 :=
        mem_missingTimes.2 ⟨List.mem_map_of_mem Prod.fst hp, ht⟩
      refine ⟨(p.1, 0), mem_padSide_of_missing hmiss, rfl, ?_⟩
      rw [lookupIntensity_of_not_mem ht]
  have hrw : ((parallelize_data_points_seconds ds1 ds2).2.filterMap fun q =>
      if p.1 = q.1 ∧ p.1 ∈ commonTimes ds1 ds2
      then some (p.1, max (p.2 - q.2) minI) else none)
      = ((padSide ds2 ds1).filterMap fun q =>
        if p.1 = q.1 then some (p.1, max (p.2 - q.2) minI) else none) := by
    simp only [parallelize_data_points_seconds, hC, and_true]
  rw [hrw, filterMap_single (nodup_keys_padSide hnd2) p hrmem hrt minI, hrval]

/-- Witness for the amended C5: `[(0,2),(5,3)] - [(5,1),(10,4)]` with
minimum 0 is computed pointwise over the first series' times. -/
theorem c5_substract_pointwise_witness :
    substract_data_points_seconds [((0 : ℚ), 2), (5, 3)] [((5 : ℚ), 1), (10, 4)] 0
      = ([((0 : ℚ), 2), (5, 3)] : List DataPoint).map fun p =>
          (p.1, max (p.2 - lookupIntensity [((5 : ℚ), 1), (10, 4)] p.1) 0) :=
  c5_substract_pointwise [((0 : ℚ), 2), (5, 3)] [((5 : ℚ), 1), (10, 4)] 0
    (by norm_num [List.pairwise_cons]) (by norm_num [List.pairwise_cons])

/-- Counterexample to C5 as stated: subtracting `[(5,2)]` from `[(0,1)]`
yields only the time-0 point; the time 5, which belongs to the union of the
two time sets, has no sample in the result, so the result is not one point
per union time. -/
theorem c5_union_counterexample :
    substract_data_points_seconds [((0 : ℚ), 1)] [((5 : ℚ), 2)] 0 = [((0 : ℚ), 1)]
    ∧ (5 : ℚ) ∈ keysOf [((5 : ℚ), 2)]
    ∧ ¬ (5 : ℚ) ∈ keysOf (substract_data_points_seconds
        [((0 : ℚ), 1)] [((5 : ℚ), 2)] 0) := by
  have hnotmem : ¬ (0 : ℚ) ∈ keysOf [((5 : ℚ), 2)] := by
    simp [keysOf]
  have hl : lookupIntensity [((5 : ℚ), 2)] 0 = 0 :=
    lookupIntensity_of_not_mem hnotmem
  have he : substract_data_points_seconds [((0 : ℚ), 1)] [((5 : ℚ), 2)] 0
      = [((0 : ℚ), 1)] := by
    have hnd2 : (keysOf [((5 : ℚ), 2)]).Nodup := by simp [keysOf]
    unfold substract_data_points_seconds
    rw [flatMap_eq_map _ _
      (fun p => (p.1, max (p.2 - lookupIntensity [((5 : ℚ), 2)] p.1) 0)) ?_]
    · simp only [List.map_cons, List.map_nil, hl]
      norm_num [max_def]
    · intro p hp
      have hp0 : p = ((0 : ℚ), 1) := by simpa using hp
      subst hp0
      have hk1 : (0 : ℚ) ∈ keysOf (padSide [((0 : ℚ), 1)] [((5 : ℚ), 2)]) := by
        rw [mem_keys_padSide]
        exact Or.inl (by simp [keysOf])
      have hk2 : (0 : ℚ) ∈ keysOf (padSide [((5 : ℚ), 2)] [((0 : ℚ), 1)]) := by
        rw [mem_keys_padSide]
        exact Or.inr (by simp [keysOf])
      have hC : (0 : ℚ) ∈ commonTimes [((0 : ℚ), 1)] [((5 : ℚ), 2)] := by
        unfold commonTimes
        rw [List.mem_filter]
        exact ⟨hk1, by simpa using hk2⟩
      have hmiss : (0 : ℚ) ∈ missingTimes [((5 : ℚ), 2)] [((0 : ℚ), 1)] :=
        mem_missingTimes.2 ⟨by simp [keysOf], hnotmem⟩
      have hrw : (((parallelize_data_points_seconds
          [((0 : ℚ), 1)] [((5 : ℚ), 2)]).2).filterMap fun q =>
          if (((0 : ℚ), (1 : ℚ)) : DataPoint).1 = q.1
              ∧ (((0 : ℚ), (1 : ℚ)) : DataPoint).1
                ∈ commonTimes [((0 : ℚ), 1)] [((5 : ℚ), 2)]
          then some ((((0 : ℚ), (1 : ℚ)) : DataPoint).1,
            max ((((0 : ℚ), (1 : ℚ)) : DataPoint).2 - q.2) 0) else none)
          = ((padSide [((5 : ℚ), 2)] [((0 : ℚ), 1)]).filterMap fun q =>
            if (((0 : ℚ), (1 : ℚ)) : DataPoint).1 = q.1
            then some ((((0 : ℚ), (1 : ℚ)) : DataPoint).1,
              max ((((0 : ℚ), (1 : ℚ)) : DataPoint).2 - q.2) 0) else none) := by
        simp only [parallelize_data_points_seconds, hC, and_true]
      rw [hrw, filterMap_single (nodup_keys_padSide hnd2)
        (((0 : ℚ), (1 : ℚ)) : DataPoint) (mem_padSide_of_missing hmiss) rfl 0]
      simp [hl]
  refine ⟨he, by simp [keysOf], ?_⟩
  rw [he]
  simp [keysOf]

lemma linspace_length (lo hi : ℚ) (n : ℕ) : (linspace lo hi n).length = n := by
  unfold linspace
  by_cases h0 : n = 0
  · rw [if_pos h0, h0]; rfl
  · rw [if_neg h0]
    by_cases h1 : n = 1
    · rw [if_pos h1, h1]; rfl
    · rw [if_neg h1, List.length_map, List.length_range]

lemma gate_zero (l : List DataPoint) (hz : ∀ p ∈ l, p.2 = 0) :
    gate_data_points_seconds l (1 / 100) 0 none = some (l.map fun p => (p.1, 0)) := by
  have hM : gateMax l = 0 :=
    le_antisymm (foldlMax_le (fun p hp => le_of_eq (hz p hp)) 0 le_rfl)
      (foldlMax_init_le l 0)
  unfold gate_data_points_seconds
  rw [hM]
  rw [if_neg (by norm_num)]
  refine congrArg some (List.map_congr_left ?_)
  intro p hp
  rw [if_pos (by rw [hz p hp]; norm_num)]

lemma simplify_zero (ds : List DataPoint) (n : ℕ) :
    simplify_data_points_seconds zeroSpline ds n
      = some ((linspace (npMin (keysOf (List.insertionSort timeLe ds)))
          (npMax (keysOf (List.insertionSort timeLe ds))) n).map fun t => (t, 0)) := by
  unfold simplify_data_points_seconds
  rw [gate_zero]
  · rw [List.map_map]
    rfl
  · intro p hp
    rw [List.mem_map] at hp
    obtain ⟨t, _, he⟩ := hp
    rw [← he]
    rfl

lemma cleanFlatsPass_zero {tre : ℚ} (htre : 0 < tre) {l : List DataPoint}
    (hz : ∀ p ∈ l, p.2 = 0) : cleanFlatsPass tre l = [] := by
  unfold cleanFlatsPass
  rw [List.filterMap_eq_nil_iff]
  intro x hx
  obtain ⟨a, bc⟩ := x
  obtain ⟨b, c⟩ := bc
  have h1 := List.of_mem_zip hx
  have h2 := List.of_mem_zip h1.2
  have ha : a ∈ l := h1.1
  have hb : b ∈ l := List.mem_of_mem_tail h2.1
  have hc : c ∈ l := List.mem_of_mem_tail (List.mem_of_mem_tail h2.2)
  dsimp only
  rw [if_pos (Or.inl ⟨by rw [hz a ha, hz b hb]; simpa using htre,
    by rw [hz b hb, hz c hc]; simpa using htre⟩)]

lemma reduceLoop_length_le (spline : List DataPoint → ℚ → ℚ)
    (orig : List DataPoint) (d : ℕ) :
    ∀ (fuel : ℕ) (current : List DataPoint) (n : ℕ) (out : List DataPoint),
      reduceLoop spline orig d fuel current n = some out → out.length ≤ d := by
  intro fuel
  induction fuel with
  | zero =>
    intro current n out h
    simp only [reduceLoop] at h
    split at h
    next => simp at h
    next hge =>
      rw [Option.some_inj] at h
      rw [← h]
      exact Nat.le_of_not_lt hge
  | succ fuel ih =>
    intro current n out h
    simp only [reduceLoop] at h
    split at h
    next =>
      split at h
      next => simp at h
      next =>
        rw [Option.bind_eq_some] at h
        obtain ⟨s, _, h⟩ := h
        rw [Option.bind_eq_some] at h
        obtain ⟨c, _, h⟩ := h
        exact ih c (n - 1) out h
    next hge =>
      rw [Option.some_inj] at h
      rw [← h]
      exact Nat.le_of_not_lt hge

/-- C1 (amended): with `desired_num_points = 32`, any input with at most 32
points (in particular any input with fewer than 32) is returned unchanged;
for longer inputs the loop exits as soon as the current length is AT MOST
32, so any returned series has at most 32 points, but not necessarily
exactly 32 — the flat-run elision can overshoot below the target (the
counterexample lands at 0 points).  This holds for every spline
evaluator. -/
theorem c1_reduction_bounds (spline : List DataPoint → ℚ → ℚ)
    (ds out : List DataPoint) :
    (ds.length ≤ 32 → clean_and_simplify_to_desired_points spline ds 32 = some ds)
    ∧ (clean_and_simplify_to_desired_points spline ds 32 = some out →
        out.length ≤ 32) := by
  constructor
  · intro hle
    unfold clean_and_simplify_to_desired_points
    simp only [reduceLoop]
    rw [if_neg (Nat.not_lt.2 hle)]
  · intro h
    exact reduceLoop_length_le spline ds 32 (ds.length + 1) ds ds.length out h

/-- Witness for C1: a one-point schedule is returned unchanged. -/
theorem c1_reduction_bounds_witness :
    clean_and_simplify_to_desired_points zeroSpline [((0 : ℚ), 0)] 32
      = some [((0 : ℚ), 0)] :=
  (c1_reduction_bounds zeroSpline [((0 : ℚ), 0)] []).1 (by simp)

/-- Counterexample to C1 as stated: on a 33-point all-zero schedule (whose
interpolating spline is identically zero) the first resample yields 32
all-zero points, the flat-run elision then removes every one of them, and
the loop exits with the empty series: the output has 0 points, not exactly
32. -/
theorem c1_exact_count_counterexample :
    ds33.length = 33
    ∧ clean_and_simplify_to_desired_points zeroSpline ds33 32 = some []
    ∧ ([] : List DataPoint).length ≠ 32 := by
  have hlen33 : ds33.length = 33 := by simp [ds33]
  refine ⟨hlen33, ?_, by simp⟩
  obtain ⟨L, hsimp, hlenL, hzL⟩ :
      ∃ L, simplify_data_points_seconds zeroSpline ds33 32 = some L
        ∧ L.length = 32 ∧ ∀ p ∈ L, p.2 = 0 := by
    refine ⟨_, simplify_zero ds33 32, ?_, ?_⟩
    · rw [List.length_map, linspace_length]
    · intro p hp
      rw [List.mem_map] at hp
      obtain ⟨t, _, he⟩ := hp
      rw [← he]
  have hclean : clean_intermediate_flats_from_data_points_seconds L (1 / 1000)
      = some [] := by
    unfold clean_intermediate_flats_from_data_points_seconds
    rw [if_neg (by rw [hlenL]; norm_num),
      cleanFlatsPass_zero (by norm_num) hzL]
  unfold clean_and_simplify_to_desired_points
  rw [hlen33]
  simp only [reduceLoop]
  rw [if_pos (by rw [hlen33]; norm_num), if_neg (by norm_num : ¬ (33 = 0))]
  rw [show (33 : ℕ) - 1 = 32 from rfl]
  simp only [hsimp, Option.some_bind, hclean]
  rw [if_neg (by simp)]

lemma eCoef_nonneg {d : ℝ} (hd1 : 5 / 2 ≤ d) (hd2 : d ≤ 15) : 0 ≤ eCoef d := by
  unfold eCoef
  nlinarith [mul_nonneg (show (0 : ℝ) ≤ d - 2 by linarith)
    (show (0 : ℝ) ≤ 15 - d by linarith)]

lemma one_le_bCoef_add_eCoef {d : ℝ} (hd1 : 5 / 2 ≤ d) (hd2 : d ≤ 15) :
    1 ≤ bCoef d + eCoef d := by
  unfold bCoef eCoef
  nlinarith [mul_nonneg (show (0 : ℝ) ≤ d - 5 / 2 by linarith)
    (show (0 : ℝ) ≤ 15 - d by linarith)]

lemma rawIntensity2_bounds {d : ℝ} (frac : ℝ) (hd1 : 5 / 2 ≤ d) (hd2 : d ≤ 15)
    (hf0 : 0 < frac) (hf1 : frac < 1) :
    0 ≤ rawIntensity2 d frac ∧ rawIntensity2 d frac ≤ 1 := by
  have hd0 : (0 : ℝ) < d := by linarith
  have hb : 0 < bCoef d := by unfold bCoef; linarith
  have hbe : 1 ≤ bCoef d + eCoef d := one_le_bCoef_add_eCoef hd1 hd2
  have hbe0 : 0 < bCoef d + eCoef d := lt_of_lt_of_le one_pos hbe
  have ha0 : 0 ≤ aCoef d := Real.rpow_nonneg (by positivity) _
  have ha1 : aCoef d ≤ 1 := by
    unfold aCoef
    apply Real.rpow_le_one (by positivity) ?_
      (div_nonneg zero_le_one (by linarith : (0 : ℝ) ≤ 4 * d))
    rw [div_le_one hbe0]
    exact hbe
  have hangle : |aCoef d * (Real.pi * (frac - 1 / 2))| ≤ Real.pi / 2 := by
    rw [abs_mul]
    have h1 : |aCoef d| ≤ 1 := by rwa [abs_of_nonneg ha0]
    have h2 : |Real.pi * (frac - 1 / 2)| ≤ Real.pi / 2 := by
      rw [abs_mul, abs_of_pos Real.pi_pos]
      have h3 : |frac - 1 / 2| ≤ 1 / 2 := by
        rw [abs_le]
        constructor <;> linarith
      nlinarith [Real.pi_pos]
    calc |aCoef d| * |Real.pi * (frac - 1 / 2)| ≤ 1 * (Real.pi / 2) :=
        mul_le_mul h1 h2 (abs_nonneg _) zero_le_one
      _ = Real.pi / 2 := one_mul _
  rw [abs_le] at hangle
  have hcos1 : 0 ≤ Real.cos (aCoef d * (Real.pi * (frac - 1 / 2))) :=
    Real.cos_nonneg_of_mem_Icc ⟨hangle.1, hangle.2⟩
  have hX0 : 0 ≤ Real.cos (aCoef d * (Real.pi * (frac - 1 / 2))) ^ bCoef d :=
    Real.rpow_nonneg hcos1 _
  have hX1 : Real.cos (aCoef d * (Real.pi * (frac - 1 / 2))) ^ bCoef d ≤ 1 :=
    Real.rpow_le_one hcos1 (Real.cos_le_one _) (le_of_lt hb)
  have harg0 : 0 ≤ Real.pi / 2 *
      Real.cos (aCoef d * (Real.pi * (frac - 1 / 2))) ^ bCoef d :=
    mul_nonneg (by positivity) hX0
  have harg1 : Real.pi / 2 *
      Real.cos (aCoef d * (Real.pi * (frac - 1 / 2))) ^ bCoef d ≤ Real.pi / 2 :=
    mul_le_of_le_one_right (by positivity) hX1
  have hcos2 : 0 ≤ Real.cos (Real.pi / 2 *
      Real.cos (aCoef d * (Real.pi * (frac - 1 / 2))) ^ bCoef d) :=
    Real.cos_nonneg_of_mem_Icc ⟨by linarith [Real.pi_pos], harg1⟩
  have hc0 : 0 ≤ cCoef d := Real.rpow_nonneg (le_of_lt hb) _
  have hY0 : 0 ≤ Real.cos (Real.pi / 2 *
      Real.cos (aCoef d * (Real.pi * (frac - 1 / 2))) ^ bCoef d) ^ cCoef d :=
    Real.rpow_nonneg hcos2 _
  have hY1 : Real.cos (Real.pi / 2 *
      Real.cos (aCoef d * (Real.pi * (frac - 1 / 2))) ^ bCoef d) ^ cCoef d ≤ 1 :=
    Real.rpow_le_one hcos2 (Real.cos_le_one _) hc0
  unfold rawIntensity2
  exact ⟨le_max_left 0 _, max_le (by norm_num) (by linarith)⟩

lemma calculate_intensity_2_bounds (h pOn pOff amp d tm : ℝ)
    (hamp : 0 ≤ amp) (hd1 : 5 / 2 ≤ d) (hd2 : d ≤ 15) :
    0 ≤ calculate_intensity_2 h pOn pOff amp d tm
    ∧ calculate_intensity_2 h pOn pOff amp d tm ≤ amp := by
  unfold calculate_intensity_2
  by_cases hf : 0 < fracOfDay h pOn pOff tm ∧ fracOfDay h pOn pOff tm < 1
  · rw [if_pos hf]
    have hr := rawIntensity2_bounds (fracOfDay h pOn pOff tm) hd1 hd2 hf.1 hf.2
    exact ⟨mul_nonneg hr.1 hamp, mul_le_of_le_one_left hamp hr.2⟩
  · rw [if_neg hf, zero_mul]
    exact ⟨le_refl 0, hamp⟩

lemma calculate_intensity_2_outside (h pOn pOff amp d tm : ℝ)
    (hwin : pOn - tm / 60 < pOff + tm / 60)
    (hout : h < pOn - tm / 60 ∨ pOff + tm / 60 < h) :
    calculate_intensity_2 h pOn pOff amp d tm = 0 := by
  have hWpos : (0 : ℝ) < (pOff + tm / 60) - (pOn - tm / 60) := by linarith
  have hnot : ¬ (0 < fracOfDay h pOn pOff tm ∧ fracOfDay h pOn pOff tm < 1) := by
    unfold fracOfDay
    rcases hout with ho | ho
    · intro hc
      have hneg : (h - (pOn - tm / 60)) / ((pOff + tm / 60) - (pOn - tm / 60)) < 0 :=
        div_neg_of_neg_of_pos (by linarith) hWpos
      linarith [hc.1]
    · intro hc
      have hgt : 1 < (h - (pOn - tm / 60)) / ((pOff + tm / 60) - (pOn - tm / 60)) := by
        rw [lt_div_iff hWpos]
        linarith
      linarith [hc.2]
  unfold calculate_intensity_2
  rw [if_neg hnot, zero_mul]

/-- C3: every sample of `calculate_Schedule` (built on
`calculate_intensity_2`) has its intensity in `[0, max_intensity]` whenever
the amplitude is non-negative, the broadness lies in the documented range
`[2.5, 15]` and the padded window has positive width; and at every sample
time strictly outside the padded power window the intensity is exactly 0. -/
theorem c3_schedule_intensity_bounds (pOn pOff amp d tm : ℝ) (k : ℕ)
    (hamp : 0 ≤ amp) (hd1 : 5 / 2 ≤ d) (hd2 : d ≤ 15)
    (hwin : pOn - tm / 60 < pOff + tm / 60) (hk : k < 288) :
    (((k : ℝ) * 300),
        max 0 (calculate_intensity_2 ((k : ℝ) * 5 / 60) pOn pOff amp d tm))
      ∈ calculate_Schedule pOn pOff amp d tm
    ∧ 0 ≤ max 0 (calculate_intensity_2 ((k : ℝ) * 5 / 60) pOn pOff amp d tm)
    ∧ max 0 (calculate_intensity_2 ((k : ℝ) * 5 / 60) pOn pOff amp d tm) ≤ amp
    ∧ ((k : ℝ) * 300 < (pOn - tm / 60) * 3600
        ∨ (pOff + tm / 60) * 3600 < (k : ℝ) * 300 →
        max 0 (calculate_intensity_2 ((k : ℝ) * 5 / 60) pOn pOff amp d tm) = 0) := by
  refine ⟨?_, le_max_left 0 _, ?_, ?_⟩
  · unfold calculate_Schedule
    rw [List.mem_map]
    exact ⟨k, List.mem_range.2 hk, rfl⟩
  · exact max_le hamp (calculate_intensity_2_bounds _ pOn pOff amp d tm hamp hd1 hd2).2
  · intro hout
    have hout2 : (k : ℝ) * 5 / 60 < pOn - tm / 60
        ∨ pOff + tm / 60 < (k : ℝ) * 5 / 60 := by
      rcases hout with ho | ho
      · left; linarith
      · right; linarith
    rw [calculate_intensity_2_outside _ pOn pOff amp d tm hwin hout2]
    exact max_eq_left (le_refl 0)

/-- Witness for C3: the first sample (midnight) of a 6 h - 18 h schedule
with amplitude 1, broadness 3 and no transition padding. -/
theorem c3_schedule_intensity_bounds_witness :
    ((((0 : ℕ) : ℝ) * 300),
        max 0 (calculate_intensity_2 (((0 : ℕ) : ℝ) * 5 / 60) 6 18 1 3 0))
      ∈ calculate_Schedule 6 18 1 3 0
    ∧ 0 ≤ max 0 (calculate_intensity_2 (((0 : ℕ) : ℝ) * 5 / 60) 6 18 1 3 0)
    ∧ max 0 (calculate_intensity_2 (((0 : ℕ) : ℝ) * 5 / 60) 6 18 1 3 0) ≤ 1
    ∧ (((0 : ℕ) : ℝ) * 300 < (6 - (0 : ℝ) / 60) * 3600
        ∨ (18 + (0 : ℝ) / 60) * 3600 < ((0 : ℕ) : ℝ) * 300 →
        max 0 (calculate_intensity_2 (((0 : ℕ) : ℝ) * 5 / 60) 6 18 1 3 0) = 0) :=
  c3_schedule_intensity_bounds 6 18 1 3 0 0 (by norm_num) (by norm_num)
    (by norm_num) (by norm_num) (by norm_num)

end LightModulation
